import Mathlib

/-!
Verification of the streaming ZIP writer (gmaclennan/zip-writer).

The development shallowly embeds the current revision of the library:
the coordinator in the revision of index.ts that uses p-mutex
(src/unnamed/part_009), the binary encoders of write-entry.ts
(src/unnamed/part_010) and write-central-directory.ts (src/unnamed/part_008),
the helpers of utils.ts (src/unnamed/part_012), the constants module
(constants.ts, embedded from the revision in the bench sources), and the pure
CRC-32 of crc-browser.ts.

Byte buffers are `List Nat` whose elements are byte values; JS `DataView`
writes become explicit little-endian / big-endian byte serialisations; JS
bigint and number arithmetic on non-negative quantities becomes `Nat`
arithmetic; the asynchronous coordinator, whose mutex serialises all entries
in submission order, becomes a sequential state machine.
-/

/-! ## Byte-level primitives (model of DataView writes) -/

/-- Little-endian byte serialisation: `n` bytes of value `v` (padding with
zero bytes, truncating values above `2^(8*n)` exactly as a `DataView`
`setUint*` call does). -/
def leBytes : Nat → Nat → List Nat
  | 0, _ => []
  | n + 1, v => (v % 256) :: leBytes n (v / 256)

/-- Big-endian byte serialisation, as produced by a `DataView` write with
`littleEndian = false`. -/
def beBytes (n v : Nat) : List Nat := (leBytes n v).reverse

/-- One value written through `writeDataView` in utils.ts: a 16-, 32- or
64-bit unsigned write together with its endianness flag. -/
inductive DVValue where
  | u16 (v : Nat) (littleEndian : Bool)
  | u32 (v : Nat) (littleEndian : Bool)
  | u64 (v : Nat) (littleEndian : Bool)

/-- The bytes a single `DataView` method call stores. -/
def DVValue.bytes : DVValue → List Nat
  | .u16 v le => if le then leBytes 2 v else beBytes 2 v
  | .u32 v le => if le then leBytes 4 v else beBytes 4 v
  | .u64 v le => if le then leBytes 8 v else beBytes 8 v

/-- Function writeDataView from utils.ts (src/unnamed/part_012): performs the listed
writes at consecutive offsets of a buffer.  On a buffer that the writes fill
exactly, the result is the concatenation of the individual writes. -/
def writeDataView (values : List DVValue) : List Nat :=
  (values.map DVValue.bytes).flatten

/-! ## Constants (constants.ts) -/

def LOCAL_FILE_HEADER_SIGNATURE : Nat := 0x504b0304
def DATA_DESCRIPTOR_SIGNATURE : Nat := 0x504b0708
def CENTRAL_DIRECTORY_SIGNATURE : Nat := 0x504b0102
def END_OF_CENTRAL_DIR_SIGNATURE : Nat := 0x504b0506
def ZIP64_END_OF_CENTRAL_DIR_SIGNATURE : Nat := 0x504b0606
def ZIP64_END_OF_CENTRAL_DIR_LOCATOR_SIGNATURE : Nat := 0x504b0607
def VERSION_MADE_BY : Nat := 45
def VERSION_NEEDED_STANDARD : Nat := 20
def VERSION_NEEDED_ZIP64 : Nat := 45
def GENERAL_PURPOSE_FLAGS : Nat := 0b0000100000001000
def COMPRESSION_METHOD_STORE : Nat := 0
def COMPRESSION_METHOD_DEFLATE : Nat := 8
def LOCAL_FILE_HEADER_SIZE : Nat := 30
def CENTRAL_DIRECTORY_HEADER_SIZE : Nat := 46
def DATA_DESCRIPTOR_SIZE : Nat := 16
def DATA_DESCRIPTOR_SIZE_ZIP64 : Nat := 24
def EOCD_SIZE : Nat := 22
def EOCD64_SIZE : Nat := 56
def EOCD64_LOCATOR_SIZE : Nat := 20
def ZIP64_LIMIT : Nat := 0xffffffff
def LITTLE_ENDIAN : Bool := true
def BIG_ENDIAN : Bool := false

/-! ## Dates (utils.ts getDosTime / getDosDate) -/

/-- The fields the source reads off a JS `Date`.  `month1` is the one-based
month, i.e. the source's `date.getMonth() + 1`. -/
structure JSDate where
  year : Nat
  month1 : Nat
  day : Nat
  hour : Nat
  minute : Nat
  second : Nat
deriving DecidableEq, Repr

/-- getDosTime from utils.ts: `(hours << 11) | (minutes << 5) | (seconds >> 1)`. -/
def getDosTime (date : JSDate) : Nat :=
  (date.hour <<< 11) ||| (date.minute <<< 5) ||| (date.second >>> 1)

/-- getDosDate from utils.ts:
`((fullYear - 1980) << 9) | ((month + 1) << 5) | day`. -/
def getDosDate (date : JSDate) : Nat :=
  ((date.year - 1980) <<< 9) ||| (date.month1 <<< 5) ||| date.day

/-! ## Entry option validation (utils.ts validateEntryOptions) -/

/-- validateEntryOptions from utils.ts (src/unnamed/part_012): rejects an
encoded name longer than 0xffff bytes, then an encoded comment longer than
0xffff bytes, then a mode that is not an integer in [0, 0xffff].  The date is
not inspected.  A thrown RangeError is modelled as `Except.error`. -/
def validateEntryOptions (nameBytes commentBytes : List Nat) (mode : Option Int) :
    Except String Unit :=
  if nameBytes.length > 0xffff then
    .error "File name exceeds maximum length of 65535 bytes"
  else if commentBytes.length > 0xffff then
    .error "File comment exceeds maximum length of 65535 bytes"
  else
    match mode with
    | some m =>
        if m < 0 ∨ m > 0xffff then
          .error "File mode must be an integer between 0 and 65535"
        else .ok ()
    | none => .ok ()

/-! ## ZIP64 promotion policy (utils.ts, src/unnamed/part_012) -/

/-- entryNeedsZip64 from utils.ts: any of the three quantities at or above
`ZIP64_LIMIT = 0xffffffff` promotes the entry. -/
def entryNeedsZip64 (uncompressedSize compressedSize startOffset : Nat) : Bool :=
  decide (uncompressedSize ≥ ZIP64_LIMIT) ||
  decide (compressedSize ≥ ZIP64_LIMIT) ||
  decide (startOffset ≥ ZIP64_LIMIT)

/-- eocdNeedsZip64 from utils.ts: central directory start or size at or above
`ZIP64_LIMIT`, or an entry count at or above 0xffff, promotes the EOCD. -/
def eocdNeedsZip64 (centralDirectoryStart centralDirectorySize entriesCount : Nat) : Bool :=
  decide (centralDirectoryStart ≥ ZIP64_LIMIT) ||
  decide (centralDirectorySize ≥ ZIP64_LIMIT) ||
  decide (entriesCount ≥ 0xffff)

/-! ## Per-entry binary encoders (write-entry.ts, src/unnamed/part_010) -/

/-- getLocalFileHeader from write-entry.ts: a buffer of
`LOCAL_FILE_HEADER_SIZE + nameBytes.length` bytes; the eleven fixed fields
written through `writeDataView`, then the name bytes.  The source defaults
`options.date` to the current time; the model receives the date that ends up
being used. -/
def getLocalFileHeader (nameBytes : List Nat) (store : Bool) (date : JSDate) :
    List Nat :=
  writeDataView [
    .u32 LOCAL_FILE_HEADER_SIGNATURE BIG_ENDIAN,
    .u16 VERSION_NEEDED_STANDARD LITTLE_ENDIAN,
    .u16 GENERAL_PURPOSE_FLAGS LITTLE_ENDIAN,
    .u16 (if store then COMPRESSION_METHOD_STORE else COMPRESSION_METHOD_DEFLATE) LITTLE_ENDIAN,
    .u16 (getDosTime date) LITTLE_ENDIAN,
    .u16 (getDosDate date) LITTLE_ENDIAN,
    .u32 0 LITTLE_ENDIAN,
    .u32 0 LITTLE_ENDIAN,
    .u32 0 LITTLE_ENDIAN,
    .u16 nameBytes.length LITTLE_ENDIAN,
    .u16 0 LITTLE_ENDIAN] ++ nameBytes

/-- getDataDescriptor from write-entry.ts (src/unnamed/part_010).  The source
allocates `new Uint8Array(DATA_DESCRIPTOR_SIZE_ZIP64)` (24 bytes,
zero-initialised) unconditionally, writes the signature, the CRC and either
8-byte or 4-byte sizes depending on `entryNeedsZip64`, and returns the whole
buffer; in the standard case the final 8 bytes keep their zeros. -/
def getDataDescriptor (uncompressedSize compressedSize startOffset crcVal : Nat) :
    List Nat :=
  let needsZip64 := entryNeedsZip64 uncompressedSize compressedSize startOffset
  let written := writeDataView [
    .u32 DATA_DESCRIPTOR_SIGNATURE BIG_ENDIAN,
    .u32 crcVal LITTLE_ENDIAN,
    if needsZip64 then .u64 compressedSize LITTLE_ENDIAN
      else .u32 compressedSize LITTLE_ENDIAN,
    if needsZip64 then .u64 uncompressedSize LITTLE_ENDIAN
      else .u32 uncompressedSize LITTLE_ENDIAN]
  written ++ List.replicate (DATA_DESCRIPTOR_SIZE_ZIP64 - written.length) 0

/-! ## End-of-central-directory encoders
(write-central-directory.ts, src/unnamed/part_008) -/

/-- getEOCDStandard: the 22-byte end-of-central-directory record. -/
def getEOCDStandard (entriesCount centralDirectoryOffset centralDirectorySize : Nat) :
    List Nat :=
  writeDataView [
    .u32 END_OF_CENTRAL_DIR_SIGNATURE BIG_ENDIAN,
    .u16 0 LITTLE_ENDIAN,
    .u16 0 LITTLE_ENDIAN,
    .u16 entriesCount LITTLE_ENDIAN,
    .u16 entriesCount LITTLE_ENDIAN,
    .u32 centralDirectorySize LITTLE_ENDIAN,
    .u32 centralDirectoryOffset LITTLE_ENDIAN,
    .u16 0 LITTLE_ENDIAN]

/-- getEOCDZip64: the 56-byte ZIP64 EOCD record, the 20-byte ZIP64 EOCD
locator, then the 22-byte standard EOCD filled with 0xffff / 0xffffffff
sentinels, in one 98-byte buffer. -/
def getEOCDZip64 (entriesCount centralDirectoryOffset centralDirectorySize : Nat) :
    List Nat :=
  writeDataView [
    .u32 ZIP64_END_OF_CENTRAL_DIR_SIGNATURE BIG_ENDIAN,
    .u64 (EOCD64_SIZE - 12) LITTLE_ENDIAN,
    .u16 VERSION_MADE_BY LITTLE_ENDIAN,
    .u16 VERSION_NEEDED_ZIP64 LITTLE_ENDIAN,
    .u32 0 LITTLE_ENDIAN,
    .u32 0 LITTLE_ENDIAN,
    .u64 entriesCount LITTLE_ENDIAN,
    .u64 entriesCount LITTLE_ENDIAN,
    .u64 centralDirectorySize LITTLE_ENDIAN,
    .u64 centralDirectoryOffset LITTLE_ENDIAN,
    .u32 ZIP64_END_OF_CENTRAL_DIR_LOCATOR_SIGNATURE BIG_ENDIAN,
    .u32 0 LITTLE_ENDIAN,
    .u64 (centralDirectoryOffset + centralDirectorySize) LITTLE_ENDIAN,
    .u32 1 LITTLE_ENDIAN,
    .u32 END_OF_CENTRAL_DIR_SIGNATURE BIG_ENDIAN,
    .u16 0 LITTLE_ENDIAN,
    .u16 0 LITTLE_ENDIAN,
    .u16 0xffff LITTLE_ENDIAN,
    .u16 0xffff LITTLE_ENDIAN,
    .u32 0xffffffff LITTLE_ENDIAN,
    .u32 0xffffffff LITTLE_ENDIAN,
    .u16 0 LITTLE_ENDIAN]

/-- Modelled from the spec: the revision of write-central-directory.ts that
defines `getEOCD` (the function the coordinator's finalize calls) is not in
the source tree; only its two record encoders and the `eocdNeedsZip64`
predicate are.  Per the spec (4.1), when the promotion policy requires it the
ZIP64 EOCD record and locator are emitted immediately before the standard
EOCD, otherwise the standard 22-byte EOCD alone is emitted. -/
def getEOCD (centralDirectoryStart centralDirectorySize entriesCount : Nat) :
    List Nat :=
  if eocdNeedsZip64 centralDirectoryStart centralDirectorySize entriesCount then
    getEOCDZip64 entriesCount centralDirectoryStart centralDirectorySize
  else
    getEOCDStandard entriesCount centralDirectoryStart centralDirectorySize

/-! ## CRC-32 (crc-browser.ts, slice-by-16) -/

/-- One iteration of the table-generation inner loop in crc-browser.ts:
`crc = (crc >>> 1) ^ ((crc & 1) * 0xedb88320)`. -/
def crcStep1 (crc : Nat) : Nat :=
  (crc >>> 1) ^^^ ((crc &&& 1) * 0xedb88320)

/-- The table entry lookup0 i, i.e. the i-th entry of the first table in crc-browser.ts: eight iterations of `crcStep1` starting
from the index. -/
def lookup0 (i : Nat) : Nat := crcStep1^[8] i

/-- The sliced tables of crc-browser.ts:
`lookup[j][i] = (lookup[j-1][i] >>> 8) ^ lookup[0][lookup[j-1][i] & 0xff]`. -/
def lookupTab : Nat → Nat → Nat
  | 0, i => lookup0 i
  | j + 1, i => (lookupTab j i >>> 8) ^^^ lookup0 (lookupTab j i &&& 0xff)

/-- The body of the per-byte tail loop of `crc32`:
`crc = (crc >>> 8) ^ lookup[0][(crc & 0xff) ^ data[i++]]`. -/
def crcByteStep (crc b : Nat) : Nat :=
  (crc >>> 8) ^^^ lookup0 ((crc &&& 0xff) ^^^ b)

/-- The 16-byte slice computation of the main loop of `crc32`. -/
def crcSlice16 (crc b0 b1 b2 b3 b4 b5 b6 b7 b8 b9 b10 b11 b12 b13 b14 b15 : Nat) :
    Nat :=
  lookupTab 15 (b0 ^^^ (crc &&& 0xff)) ^^^
  lookupTab 14 (b1 ^^^ ((crc >>> 8) &&& 0xff)) ^^^
  lookupTab 13 (b2 ^^^ ((crc >>> 16) &&& 0xff)) ^^^
  lookupTab 12 (b3 ^^^ (crc >>> 24)) ^^^
  lookupTab 11 b4 ^^^
  lookupTab 10 b5 ^^^
  lookupTab 9 b6 ^^^
  lookupTab 8 b7 ^^^
  lookupTab 7 b8 ^^^
  lookupTab 6 b9 ^^^
  lookupTab 5 b10 ^^^
  lookupTab 4 b11 ^^^
  lookupTab 3 b12 ^^^
  lookupTab 2 b13 ^^^
  lookupTab 1 b14 ^^^
  lookupTab 0 b15

/-- The loops of `crc32` in crc-browser.ts: 16-byte slices while at least 16
bytes remain, then byte-at-a-time over the remainder. -/
def crc32Loop : Nat → List Nat → Nat
  | crc, b0 :: b1 :: b2 :: b3 :: b4 :: b5 :: b6 :: b7 ::
      b8 :: b9 :: b10 :: b11 :: b12 :: b13 :: b14 :: b15 :: rest =>
    crc32Loop (crcSlice16 crc b0 b1 b2 b3 b4 b5 b6 b7 b8 b9 b10 b11 b12 b13 b14 b15) rest
  | crc, rest => rest.foldl crcByteStep crc

/-- crc32 from crc-browser.ts: `crc = ~value`, the slice-by-16 main loop and
byte tail, then `~crc >>> 0`.  On unsigned 32-bit values the JS `~` is XOR
with 0xffffffff. -/
def crc32 (data : List Nat) (value : Nat := 0) : Nat :=
  0xffffffff ^^^ crc32Loop (value ^^^ 0xffffffff) data

/-! ## The coordinator (ZipWriter, src/unnamed/part_009)

The mutex serialises every entry write and the finalize step, so the
observable behaviour is that of a sequential state machine over the offset
counter, the output byte stream and the entry list.  The DEFLATE collaborator
is abstracted as a function from the uncompressed payload to the compressed
payload; for STORE the source pipes the chunks through an identity
`TransformStream`. -/

/-- What a caller submits to `addEntry`: the encoded name and comment bytes,
the date and mode options, the store flag, and the chunks its readable
produces. -/
structure EntrySubmission where
  nameBytes : List Nat
  commentBytes : List Nat
  date : JSDate
  mode : Option Int
  store : Bool
  chunks : List (List Nat)
deriving DecidableEq, Repr

/-- The completed EntryInfoInternal record `addEntry` pushes onto `#entries`. -/
structure EntryRecord where
  nameBytes : List Nat
  commentBytes : List Nat
  date : JSDate
  mode : Option Int
  store : Bool
  startOffset : Nat
  crc32 : Nat
  uncompressedSize : Nat
  compressedSize : Nat
  zip64 : Bool
deriving DecidableEq, Repr

instance : Inhabited EntryRecord :=
  ⟨{ nameBytes := [], commentBytes := [], date := ⟨0, 0, 0, 0, 0, 0⟩,
     mode := none, store := false, startOffset := 0, crc32 := 0,
     uncompressedSize := 0, compressedSize := 0, zip64 := false }⟩

/-- The ZipWriter state: the `#offset` counter, the bytes already emitted on
the readable side, the `#entries` list and the `#finalized` flag. -/
structure ZipState where
  offset : Nat
  output : List Nat
  entries : List EntryRecord
  finalized : Bool
deriving DecidableEq, Repr

/-- A fresh ZipWriter. -/
def initialState : ZipState :=
  { offset := 0, output := [], entries := [], finalized := false }

/-- The transform of `#zipStream`: enqueue the chunk and advance `#offset`
by its byte length. -/
def writeBytes (st : ZipState) (bytes : List Nat) : ZipState :=
  { st with output := st.output ++ bytes, offset := st.offset + bytes.length }

/-- addEntry from the ZipWriter (src/unnamed/part_009): throws if finalized,
validates the encoded options synchronously, then (under the mutex) records
`startOffset = #offset`, writes the local file header, accumulates the
uncompressed size and the chunk-folded CRC while piping the payload through
the compression stage, takes `compressedSize` as the offset delta across the
payload, decides ZIP64, writes the data descriptor and appends the record. -/
def addEntry (deflate : List Nat → List Nat) (st : ZipState) (e : EntrySubmission) :
    Except String (ZipState × EntryRecord) :=
  if st.finalized then
    .error "Cannot add entry after finalize() has been called"
  else
    match validateEntryOptions e.nameBytes e.commentBytes e.mode with
    | .error msg => .error msg
    | .ok () =>
      let startOffset := st.offset
      let st1 := writeBytes st (getLocalFileHeader e.nameBytes e.store e.date)
      let uncompressedSize := (e.chunks.map List.length).sum
      let checksum := e.chunks.foldl (fun c chunk => crc32 chunk c) 0
      let body := if e.store then e.chunks.flatten else deflate e.chunks.flatten
      let st2 := writeBytes st1 body
      let compressedSize := st2.offset - st1.offset
      let record : EntryRecord :=
        { nameBytes := e.nameBytes, commentBytes := e.commentBytes,
          date := e.date, mode := e.mode, store := e.store,
          startOffset := startOffset, crc32 := checksum,
          uncompressedSize := uncompressedSize, compressedSize := compressedSize,
          zip64 := entryNeedsZip64 uncompressedSize compressedSize startOffset }
      let st3 := writeBytes st2
        (getDataDescriptor uncompressedSize compressedSize startOffset checksum)
      .ok ({ st3 with entries := st3.entries ++ [record] }, record)

/-- The state transition of one `addEntry` call: an invalid submission throws
synchronously before any byte is written and leaves the state unchanged. -/
def zipStep (deflate : List Nat → List Nat) (st : ZipState) (e : EntrySubmission) :
    ZipState :=
  match addEntry deflate st e with
  | .ok (st2, _) => st2
  | .error _ => st

/-- A sequence of `addEntry` calls against a fresh archive. -/
def runZip (deflate : List Nat → List Nat) (subs : List EntrySubmission) : ZipState :=
  subs.foldl (zipStep deflate) initialState

/-! ## Central directory file headers
(write-central-directory.ts, src/unnamed/part_008) -/

/-- The external attributes field: `entryInfo.mode ? entryInfo.mode << 16 : 0`
(an absent or zero mode yields 0; completed records only carry validated
modes in [0, 0xffff]). -/
def externalAttrs (mode : Option Int) : Nat :=
  match mode with
  | some m => if m = 0 then 0 else m.toNat <<< 16
  | none => 0

/-- getCDFHStandard: the 46-byte central directory file header, then the name
bytes, then the comment bytes.  The record's name and comment are already
encoded in the model, mirroring the source's textEncoder step. -/
def getCDFHStandard (e : EntryRecord) : List Nat :=
  writeDataView [
    .u32 CENTRAL_DIRECTORY_SIGNATURE BIG_ENDIAN,
    .u16 VERSION_MADE_BY LITTLE_ENDIAN,
    .u16 VERSION_NEEDED_STANDARD LITTLE_ENDIAN,
    .u16 GENERAL_PURPOSE_FLAGS LITTLE_ENDIAN,
    .u16 (if e.store then COMPRESSION_METHOD_STORE else COMPRESSION_METHOD_DEFLATE) LITTLE_ENDIAN,
    .u16 (getDosTime e.date) LITTLE_ENDIAN,
    .u16 (getDosDate e.date) LITTLE_ENDIAN,
    .u32 e.crc32 LITTLE_ENDIAN,
    .u32 e.compressedSize LITTLE_ENDIAN,
    .u32 e.uncompressedSize LITTLE_ENDIAN,
    .u16 e.nameBytes.length LITTLE_ENDIAN,
    .u16 0 LITTLE_ENDIAN,
    .u16 e.commentBytes.length LITTLE_ENDIAN,
    .u16 0 LITTLE_ENDIAN,
    .u16 0 LITTLE_ENDIAN,
    .u32 (externalAttrs e.mode) LITTLE_ENDIAN,
    .u32 e.startOffset LITTLE_ENDIAN] ++ e.nameBytes ++ e.commentBytes

/-- The 28-byte ZIP64 extra field: tag 0x0001, data size 24, then the
original size, compressed size and local header offset as 8-byte values. -/
def zip64ExtraField (e : EntryRecord) : List Nat :=
  writeDataView [
    .u16 0x0001 LITTLE_ENDIAN,
    .u16 24 LITTLE_ENDIAN,
    .u64 e.uncompressedSize LITTLE_ENDIAN,
    .u64 e.compressedSize LITTLE_ENDIAN,
    .u64 e.startOffset LITTLE_ENDIAN]

/-- getCDFHZip64: the 46-byte header with 0xffffffff sentinels for the sizes
and local header offset, then name, ZIP64 extra field, comment. -/
def getCDFHZip64 (e : EntryRecord) : List Nat :=
  writeDataView [
    .u32 CENTRAL_DIRECTORY_SIGNATURE BIG_ENDIAN,
    .u16 VERSION_MADE_BY LITTLE_ENDIAN,
    .u16 VERSION_NEEDED_ZIP64 LITTLE_ENDIAN,
    .u16 GENERAL_PURPOSE_FLAGS LITTLE_ENDIAN,
    .u16 (if e.store then COMPRESSION_METHOD_STORE else COMPRESSION_METHOD_DEFLATE) LITTLE_ENDIAN,
    .u16 (getDosTime e.date) LITTLE_ENDIAN,
    .u16 (getDosDate e.date) LITTLE_ENDIAN,
    .u32 e.crc32 LITTLE_ENDIAN,
    .u32 0xffffffff LITTLE_ENDIAN,
    .u32 0xffffffff LITTLE_ENDIAN,
    .u16 e.nameBytes.length LITTLE_ENDIAN,
    .u16 (zip64ExtraField e).length LITTLE_ENDIAN,
    .u16 e.commentBytes.length LITTLE_ENDIAN,
    .u16 0 LITTLE_ENDIAN,
    .u16 0 LITTLE_ENDIAN,
    .u32 (externalAttrs e.mode) LITTLE_ENDIAN,
    .u32 0xffffffff LITTLE_ENDIAN] ++
  e.nameBytes ++ zip64ExtraField e ++ e.commentBytes

/-- getCDFH: dispatch on the record's zip64 flag. -/
def getCDFH (e : EntryRecord) : List Nat :=
  if e.zip64 then getCDFHZip64 e else getCDFHStandard e

/-! ## Finalize override (ZipWriter setEntries, src/unnamed/part_009) -/

/-- The public EntryInfo shape a caller hands back to
`finalize(\x7b entries \x7d)`: the same data, with name and comment modelled
at the byte level. -/
structure OverrideEntry where
  nameBytes : List Nat
  commentBytes : List Nat
  date : JSDate
  mode : Option Int
  store : Bool
  startOffset : Nat
  crc32 : Nat
  uncompressedSize : Nat
  compressedSize : Nat
  zip64 : Bool
deriving DecidableEq, Repr

/-- Lookup mirroring currentEntriesByOffset.get(offset): the source fills a Map in entry
order, so a later entry with the same `startOffset` wins; looking up in the
reversed list mirrors that. -/
def lookupByOffset (entries : List EntryRecord) (off : Nat) : Option EntryRecord :=
  entries.reverse.find? (fun e => e.startOffset == off)

/-- The per-override-entry checks of `#setEntries`: the referenced offset
must exist, and crc32, uncompressed size and compressed size must match the
existing entry.  The zip64 flag is not checked (the source carries a TODO
noting an invalid zip64 flag can get through). -/
def checkOverrideEntry (current : List EntryRecord) (o : OverrideEntry) :
    Except String Unit :=
  match lookupByOffset current o.startOffset with
  | none => .error "Cannot set entries: entry at offset does not exist"
  | some existing =>
    if existing.crc32 ≠ o.crc32 then
      .error "Cannot set entries: entry at offset has different CRC32"
    else if existing.uncompressedSize ≠ o.uncompressedSize then
      .error "Cannot set entries: entry at offset has different uncompressed size"
    else if existing.compressedSize ≠ o.compressedSize then
      .error "Cannot set entries: entry at offset has different compressed size"
    else .ok ()

/-- The conversion `#setEntries` applies to each accepted override entry
(re-encoding name and comment, converting the numeric fields). -/
def overrideToRecord (o : OverrideEntry) : EntryRecord :=
  { nameBytes := o.nameBytes, commentBytes := o.commentBytes, date := o.date,
    mode := o.mode, store := o.store, startOffset := o.startOffset,
    crc32 := o.crc32, uncompressedSize := o.uncompressedSize,
    compressedSize := o.compressedSize, zip64 := o.zip64 }

/-- The thrown message of one override check, as an Option. -/
def checkToOption (current : List EntryRecord) (o : OverrideEntry) : Option String :=
  match checkOverrideEntry current o with
  | .error msg => some msg
  | .ok () => none

/-- Method setEntries of the ZipWriter: run the checks over the override list in order, throwing
at the first violation, then replace `#entries` with the converted list. -/
def setEntries (current : List EntryRecord) (ovr : List OverrideEntry) :
    Except String (List EntryRecord) :=
  match ovr.findSome? (checkToOption current) with
  | some msg => .error msg
  | none => .ok (ovr.map overrideToRecord)

/-! ## Finalize (ZipWriter finalize, src/unnamed/part_009) -/

/-- The outcome of `finalize`: the final state, and—when the override is
rejected or finalize was already called—the error the output stream is
aborted with. -/
structure FinalizeOutcome where
  st : ZipState
  aborted : Option String
deriving DecidableEq, Repr

/-- The central-directory and EOCD phase of `finalize`: write a CDFH per
entry, compute the directory size as the offset delta, then write the EOCD
(s) via `getEOCD`. -/
def writeCentralDirectory (st : ZipState) : FinalizeOutcome :=
  let centralDirectoryStart := st.offset
  let st1 := writeBytes st (st.entries.map getCDFH).flatten
  let centralDirectorySize := st1.offset - centralDirectoryStart
  let st2 := writeBytes st1
    (getEOCD centralDirectoryStart centralDirectorySize st.entries.length)
  { st := st2, aborted := none }

/-- finalize: throws if already finalized; applies the override via
`#setEntries`, aborting the output (with the thrown error, before any
central-directory byte is written) if it is rejected; otherwise writes the
central directory and EOCD records. -/
def finalizeZip (st : ZipState) (ovr : Option (List OverrideEntry)) :
    FinalizeOutcome :=
  if st.finalized then
    { st := st, aborted := some "finalize() has already been called" }
  else
    let st0 := { st with finalized := true }
    match ovr with
    | some o =>
      match setEntries st0.entries o with
      | .error msg => { st := st0, aborted := some msg }
      | .ok newEntries => writeCentralDirectory { st0 with entries := newEntries }
    | none => writeCentralDirectory st0

/-! ## The CRC-32 of the spec

The specification's interface for the CRC collaborator: IEEE 802.3,
polynomial 0xEDB88320 (reflected form), initial value 0xFFFFFFFF, final xor
0xFFFFFFFF, processing input bits LSB-first.  Used as the comparison point
for the crc-browser.ts implementation. -/

/-- One bit of the IEEE 802.3 CRC-32: xor the input bit into the register's
low end, then shift, folding in the polynomial when the low bit was set. -/
def crcSpecStep (c bit : Nat) : Nat :=
  if (c ^^^ bit) &&& 1 = 1 then ((c ^^^ bit) >>> 1) ^^^ 0xedb88320
  else (c ^^^ bit) >>> 1

/-- The bits of a byte, least significant first. -/
def byteBits (b : Nat) : List Nat :=
  [b &&& 1, (b >>> 1) &&& 1, (b >>> 2) &&& 1, (b >>> 3) &&& 1,
   (b >>> 4) &&& 1, (b >>> 5) &&& 1, (b >>> 6) &&& 1, (b >>> 7) &&& 1]

/-- The IEEE 802.3 CRC-32 of a byte sequence as the spec states it: initial
value 0xFFFFFFFF, every bit of every byte LSB-first through `crcSpecStep`,
final xor with 0xFFFFFFFF. -/
def crcSpec (data : List Nat) : Nat :=
  0xffffffff ^^^ data.foldl (fun c b => (byteBits b).foldl crcSpecStep c) 0xffffffff

/-- The XOR of each byte pushed through the iterated step, later bytes
iterated fewer times. -/
def crcTailSum : List Nat → Nat
  | [] => 0
  | b :: rest => crcStep1^[8 * (rest.length + 1)] b ^^^ crcTailSum rest

/-- Bits of the low `k` bits of a number, least significant first. -/
def bitsList : Nat → Nat → List Nat
  | 0, _ => []
  | k + 1, x => (x &&& 1) :: bitsList k (x >>> 1)

/-! ## Invariants and concrete fixtures -/

/-- The invariant the coordinator maintains: the offset counter equals the
bytes emitted; an archive with no entries has emitted nothing; every entry's
local file header occupies the bytes of the output starting exactly at its
`startOffset`; start offsets strictly increase in submission order; and a
non-empty archive's output starts with the local-file-header signature. -/
structure ZipInv (st : ZipState) : Prop where
  offsetEq : st.offset = st.output.length
  emptyOut : st.entries = [] → st.output = []
  headers : ∀ e ∈ st.entries,
    e.startOffset + (30 + e.nameBytes.length) ≤ st.output.length ∧
    (st.output.drop e.startOffset).take (30 + e.nameBytes.length) =
      getLocalFileHeader e.nameBytes e.store e.date
  increasing : (st.entries.map EntryRecord.startOffset).Pairwise (· < ·)
  firstSig : st.entries ≠ [] → st.output.take 4 = [0x50, 0x4b, 0x03, 0x04]

/-- What the amended override contract checks per entry: the referenced
offset must resolve to an existing entry whose crc32 and sizes agree;
the zip64 flag is not among the checked fields. -/
def overrideViolation (current : List EntryRecord) (o : OverrideEntry) : Prop :=
  match lookupByOffset current o.startOffset with
  | none => True
  | some ex => ex.crc32 ≠ o.crc32 ∨ ex.uncompressedSize ≠ o.uncompressedSize ∨
      ex.compressedSize ≠ o.compressedSize

/-- A small valid STORE submission used as a concrete fixture. -/
def subA : EntrySubmission :=
  { nameBytes := [97], commentBytes := [], date := ⟨2024, 5, 1, 12, 30, 40⟩,
    mode := none, store := true, chunks := [[104, 105]] }

/-- The state after adding `subA` to a fresh archive. -/
def stA : ZipState :=
  match addEntry (fun x => x) initialState subA with
  | .ok (s, _) => s
  | .error _ => initialState

/-- The completed record of `subA`. -/
def recA : EntryRecord :=
  match addEntry (fun x => x) initialState subA with
  | .ok (_, r) => r
  | .error _ => default

/-- A submission whose date (year 2200) is outside the MS-DOS range
(1980-2107) but whose name, comment and mode are all valid. -/
def subBadDate : EntrySubmission :=
  { nameBytes := [97, 98], commentBytes := [99], date := ⟨2200, 1, 1, 0, 0, 0⟩,
    mode := some 420, store := true, chunks := [] }

/-- The state after adding `subBadDate` to a fresh archive. -/
def stBadDate : ZipState :=
  match addEntry (fun x => x) initialState subBadDate with
  | .ok (s, _) => s
  | .error _ => initialState

/-- The completed record of `subBadDate`. -/
def recBadDate : EntryRecord :=
  match addEntry (fun x => x) initialState subBadDate with
  | .ok (_, r) => r
  | .error _ => default

/-- A completed entry, as a fixture for the override checks. -/
def curEntry0 : EntryRecord :=
  { nameBytes := [97], commentBytes := [], date := ⟨2024, 5, 1, 12, 30, 40⟩,
    mode := none, store := true, startOffset := 0, crc32 := 5,
    uncompressedSize := 13, compressedSize := 13, zip64 := false }

/-- An archive state holding `curEntry0`, ready to finalize. -/
def stCur : ZipState :=
  { offset := 55, output := List.replicate 55 0, entries := [curEntry0],
    finalized := false }

/-- An override identical to `curEntry0` except for the zip64 flag. -/
def ovrZipFlip : OverrideEntry :=
  { nameBytes := [97], commentBytes := [], date := ⟨2024, 5, 1, 12, 30, 40⟩,
    mode := none, store := true, startOffset := 0, crc32 := 5,
    uncompressedSize := 13, compressedSize := 13, zip64 := true }

/-- An override referencing a start offset at which no entry was written. -/
def ovrMissing : OverrideEntry :=
  { nameBytes := [97], commentBytes := [], date := ⟨2024, 5, 1, 12, 30, 40⟩,
    mode := none, store := true, startOffset := 999, crc32 := 5,
    uncompressedSize := 13, compressedSize := 13, zip64 := false }

/-! ## Bitwise helper lemmas -/

theorem xorShiftRight (x y n : Nat) : (x ^^^ y) >>> n = x >>> n ^^^ y >>> n := by
  apply Nat.eq_of_testBit_eq
  intro i
  simp

theorem xorLeftComm (a b c : Nat) : a ^^^ (b ^^^ c) = b ^^^ (a ^^^ c) := by
  rw [← Nat.xor_assoc, Nat.xor_comm a b, Nat.xor_assoc]

theorem xorCancelLeft (a b : Nat) : a ^^^ (a ^^^ b) = b := by
  rw [← Nat.xor_assoc, Nat.xor_self, Nat.zero_xor]

/-- Splitting a natural number into its low `n` bits and the rest. -/
theorem lowHighDecomp (x n : Nat) : (x &&& (2 ^ n - 1)) ^^^ ((x >>> n) <<< n) = x := by
  apply Nat.eq_of_testBit_eq
  intro i
  rcases Nat.lt_or_ge i n with h | h
  · simp [Nat.testBit_shiftLeft, h, Nat.not_le.mpr h]
  · simp [Nat.testBit_shiftLeft, h, Nat.testBit_lt_two_pow, Nat.lt_of_lt_of_le, Nat.not_lt.mpr h,
      Nat.add_sub_cancel' h]

/-! ## CRC algebra: the table steps are linear over XOR -/

theorem crcStep1_apply (z : Nat) :
    crcStep1 z = (z >>> 1) ^^^ ((z &&& 1) * 0xedb88320) := rfl

theorem and_one_cases (x : Nat) : x &&& 1 = 0 ∨ x &&& 1 = 1 := by
  rw [Nat.and_one_is_mod]
  exact Nat.mod_two_eq_zero_or_one x

theorem crcStep1_xor (x y : Nat) :
    crcStep1 (x ^^^ y) = crcStep1 x ^^^ crcStep1 y := by
  have hand : (x ^^^ y) &&& 1 = (x &&& 1) ^^^ (y &&& 1) := Nat.and_xor_distrib_right
  rw [crcStep1_apply, crcStep1_apply, crcStep1_apply, hand, xorShiftRight]
  rcases and_one_cases x with hx | hx <;> rcases and_one_cases y with hy | hy <;>
    simp [hx, hy, Nat.xor_assoc, Nat.xor_comm, xorLeftComm]

theorem iterate_crcStep1_xor (k x y : Nat) :
    crcStep1^[k] (x ^^^ y) = crcStep1^[k] x ^^^ crcStep1^[k] y := by
  induction k generalizing x y with
  | zero => simp
  | succ k ih =>
    rw [Function.iterate_succ_apply, Function.iterate_succ_apply,
      Function.iterate_succ_apply, crcStep1_xor, ih]

theorem iterate_crcStep1_shiftLeft (k y : Nat) : crcStep1^[k] (y <<< k) = y := by
  induction k generalizing y with
  | zero => simp
  | succ k ih =>
    rw [Function.iterate_succ_apply]
    have h1 : (y <<< (k + 1)) &&& 1 = 0 := by
      rw [Nat.and_one_is_mod, Nat.shiftLeft_eq, pow_succ, ← Nat.mul_assoc]
      exact Nat.mul_mod_left _ 2
    have h2 : (y <<< (k + 1)) >>> 1 = y <<< k := by
      rw [Nat.shiftLeft_eq, Nat.shiftLeft_eq, Nat.shiftRight_succ, Nat.shiftRight_zero,
        pow_succ, ← Nat.mul_assoc]
      exact Nat.mul_div_cancel _ (by omega)
    rw [crcStep1_apply, h1, h2]
    simp only [Nat.zero_mul, Nat.xor_zero]
    exact ih y

theorem iter8_decomp (x : Nat) :
    crcStep1^[8] x = (x >>> 8) ^^^ crcStep1^[8] (x &&& 255) := by
  conv_lhs => rw [← lowHighDecomp x 8]
  rw [iterate_crcStep1_xor]
  norm_num [iterate_crcStep1_shiftLeft 8 (x >>> 8), Nat.xor_comm]

theorem and_255_of_lt (b : Nat) (hb : b < 256) : b &&& 255 = b := by
  have h : b &&& 2 ^ 8 - 1 = b := Nat.and_pow_two_sub_one_of_lt_two_pow (by omega)
  norm_num at h
  exact h

theorem shiftRight8_of_lt (b : Nat) (hb : b < 256) : b >>> 8 = 0 := by
  rw [Nat.shiftRight_eq_div_pow]
  omega

theorem crcByteStep_eq (crc b : Nat) (hb : b < 256) :
    crcByteStep crc b = crcStep1^[8] (crc ^^^ b) := by
  have h1 : (crc ^^^ b) >>> 8 = crc >>> 8 := by
    rw [xorShiftRight, shiftRight8_of_lt b hb, Nat.xor_zero]
  have h2 : (crc ^^^ b) &&& 255 = (crc &&& 255) ^^^ b := by
    rw [Nat.and_xor_distrib_right, and_255_of_lt b hb]
  rw [iter8_decomp, h1, h2]
  rfl

theorem lookupTab_eq (j i : Nat) : lookupTab j i = crcStep1^[8 * (j + 1)] i := by
  induction j with
  | zero => rfl
  | succ j ih =>
    show (lookupTab j i >>> 8) ^^^ lookup0 (lookupTab j i &&& 255) = _
    have h : (lookupTab j i >>> 8) ^^^ lookup0 (lookupTab j i &&& 255) =
        crcStep1^[8] (lookupTab j i) := (iter8_decomp (lookupTab j i)).symm
    rw [h, ih, ← Function.iterate_add_apply]
    ring_nf

theorem foldl_crcByteStep_eq (bs : List Nat) (c : Nat) (h : ∀ b ∈ bs, b < 256) :
    bs.foldl crcByteStep c = crcStep1^[8 * bs.length] c ^^^ crcTailSum bs := by
  induction bs generalizing c with
  | nil => simp [crcTailSum]
  | cons b rest ih =>
    have hb : b < 256 := h b (List.mem_cons_self b rest)
    have hrest : ∀ x ∈ rest, x < 256 := fun x hx => h x (List.mem_cons_of_mem b hx)
    rw [List.foldl_cons, ih (crcByteStep c b) hrest, crcByteStep_eq c b hb,
      ← Function.iterate_add_apply, iterate_crcStep1_xor]
    show crcStep1^[8 * rest.length + 8] c ^^^ crcStep1^[8 * rest.length + 8] b ^^^
      crcTailSum rest = crcStep1^[8 * (rest.length + 1)] c ^^^ crcTailSum (b :: rest)
    have harith : 8 * rest.length + 8 = 8 * (rest.length + 1) := by ring
    rw [harith]
    show _ = _ ^^^ (crcStep1^[8 * (rest.length + 1)] b ^^^ crcTailSum rest)
    rw [Nat.xor_assoc]

theorem iterate_split8 (m x : Nat) :
    crcStep1^[m + 8] x = crcStep1^[m + 8] (x &&& 255) ^^^ crcStep1^[m] (x >>> 8) := by
  rw [Function.iterate_add_apply, iter8_decomp, iterate_crcStep1_xor,
    ← Function.iterate_add_apply, Nat.xor_comm]

theorem shiftRight_comp (x m n : Nat) : (x >>> m) >>> n = x >>> (m + n) := by
  apply Nat.eq_of_testBit_eq
  intro i
  simp [Nat.add_assoc]

theorem crcRegisterDecomp (crc : Nat) :
    crcStep1^[128] crc =
      crcStep1^[128] (crc &&& 255) ^^^ crcStep1^[120] ((crc >>> 8) &&& 255) ^^^
      crcStep1^[112] ((crc >>> 16) &&& 255) ^^^ crcStep1^[104] (crc >>> 24) := by
  have h1 := iterate_split8 120 crc
  have h2 := iterate_split8 112 (crc >>> 8)
  have h3 := iterate_split8 104 (crc >>> 16)
  rw [shiftRight_comp crc 8 8] at h2
  rw [shiftRight_comp crc 16 8] at h3
  have e1 : (120 + 8 : Nat) = 128 := by norm_num
  have e2 : (112 + 8 : Nat) = 120 := by norm_num
  have e3 : (104 + 8 : Nat) = 112 := by norm_num
  have e4 : (8 + 8 : Nat) = 16 := by norm_num
  have e5 : (16 + 8 : Nat) = 24 := by norm_num
  rw [e1] at h1
  rw [e2] at h2
  rw [e3] at h3
  rw [e4] at h2
  rw [e5] at h3
  rw [h1, h2, h3, Nat.xor_assoc, Nat.xor_assoc]


set_option maxHeartbeats 1000000 in
theorem crcSlice16_eq (crc b0 b1 b2 b3 b4 b5 b6 b7 b8 b9 b10 b11 b12 b13 b14 b15 : Nat)
    (h0 : b0 < 256) (h1 : b1 < 256) (h2 : b2 < 256) (h3 : b3 < 256)
    (h4 : b4 < 256) (h5 : b5 < 256) (h6 : b6 < 256) (h7 : b7 < 256)
    (h8 : b8 < 256) (h9 : b9 < 256) (h10 : b10 < 256) (h11 : b11 < 256)
    (h12 : b12 < 256) (h13 : b13 < 256) (h14 : b14 < 256) (h15 : b15 < 256) :
    crcSlice16 crc b0 b1 b2 b3 b4 b5 b6 b7 b8 b9 b10 b11 b12 b13 b14 b15 =
      List.foldl crcByteStep crc
        [b0, b1, b2, b3, b4, b5, b6, b7, b8, b9, b10, b11, b12, b13, b14, b15] := by
  rw [foldl_crcByteStep_eq _ _ (by
    intro x hx
    simp only [List.mem_cons, List.not_mem_nil, or_false] at hx
    rcases hx with rfl|rfl|rfl|rfl|rfl|rfl|rfl|rfl|rfl|rfl|rfl|rfl|rfl|rfl|rfl|rfl <;> assumption)]
  simp only [crcTailSum, List.length_cons, List.length_nil, Nat.reduceAdd, Nat.reduceMul,
    Nat.xor_zero]
  simp only [crcSlice16, lookupTab_eq, Nat.reduceAdd, Nat.reduceMul, iterate_crcStep1_xor]
  rw [crcRegisterDecomp crc]
  simp only [Nat.xor_assoc, Nat.xor_comm, xorLeftComm]

theorem crc32Loop_eq (crc : Nat) (data : List Nat) (h : ∀ b ∈ data, b < 256) :
    crc32Loop crc data = data.foldl crcByteStep crc := by
  induction crc, data using crc32Loop.induct with
  | case1 crc b0 b1 b2 b3 b4 b5 b6 b7 b8 b9 b10 b11 b12 b13 b14 b15 rest ih =>
    rw [crc32Loop]
    rw [ih (fun b hb => h b (by simp [List.mem_cons] at hb ⊢; tauto))]
    rw [crcSlice16_eq crc b0 b1 b2 b3 b4 b5 b6 b7 b8 b9 b10 b11 b12 b13 b14 b15
      (h b0 (by simp)) (h b1 (by simp)) (h b2 (by simp)) (h b3 (by simp))
      (h b4 (by simp)) (h b5 (by simp)) (h b6 (by simp)) (h b7 (by simp))
      (h b8 (by simp)) (h b9 (by simp)) (h b10 (by simp)) (h b11 (by simp))
      (h b12 (by simp)) (h b13 (by simp)) (h b14 (by simp)) (h b15 (by simp))]
    simp [List.foldl]
  | case2 crc rest hne =>
    rw [crc32Loop]
    exact hne

theorem byteBits_eq_bitsList (b : Nat) : byteBits b = bitsList 8 b := by
  simp [byteBits, bitsList, shiftRight_comp]

theorem crcSpecStep_eq (c bit : Nat) : crcSpecStep c bit = crcStep1 (c ^^^ bit) := by
  rw [crcSpecStep, crcStep1_apply]
  rcases and_one_cases (c ^^^ bit) with h | h <;> simp [h]

theorem xor_two_mul (a b : Nat) (ha : a < 2) : a ^^^ 2 * b = a + 2 * b := by
  interval_cases a
  · simp
  · apply Nat.eq_of_testBit_eq
    intro i
    cases i with
    | zero =>
      simp only [Nat.testBit_zero]
      have e1 : (1 ^^^ 2 * b) % 2 = 1 := by
        simp [Nat.xor_mod_two_eq_one]
      have e2 : (1 + 2 * b) % 2 = 1 := by omega
      rw [e1, e2]
    | succ i =>
      rw [Nat.testBit_succ, Nat.testBit_succ, Nat.xor_div_two]
      have e1 : (1 : Nat) / 2 = 0 := rfl
      have e2 : 2 * b / 2 = b := by omega
      have e3 : (1 + 2 * b) / 2 = b := by omega
      rw [e1, e2, e3, Nat.zero_xor]

theorem maskDecomp (x k : Nat) :
    x &&& (2 ^ (k + 1) - 1) = (x &&& 1) ^^^ (((x >>> 1) &&& (2 ^ k - 1)) <<< 1) := by
  have h1 : ((x >>> 1) &&& (2 ^ k - 1)) <<< 1 = 2 * (x / 2 % 2 ^ k) := by
    rw [Nat.and_pow_two_sub_one_eq_mod, Nat.shiftLeft_eq, Nat.shiftRight_succ,
      Nat.shiftRight_zero]
    ring
  rw [h1, Nat.and_one_is_mod, Nat.and_pow_two_sub_one_eq_mod,
    xor_two_mul _ _ (Nat.mod_lt _ (by norm_num)), pow_succ, Nat.mul_comm (2 ^ k) 2,
    Nat.mod_mul]

theorem bitsFold (k : Nat) (x c : Nat) :
    (bitsList k x).foldl crcSpecStep c = crcStep1^[k] (c ^^^ (x &&& (2 ^ k - 1))) := by
  induction k generalizing x c with
  | zero => simp [bitsList]
  | succ k ih =>
    rw [bitsList, List.foldl_cons, ih, crcSpecStep_eq, Function.iterate_succ_apply]
    congr 1
    rw [maskDecomp, ← Nat.xor_assoc, crcStep1_xor]
    have h1 : crcStep1 (((x >>> 1) &&& (2 ^ k - 1)) <<< 1) = (x >>> 1) &&& (2 ^ k - 1) := by
      have h := iterate_crcStep1_shiftLeft 1 ((x >>> 1) &&& (2 ^ k - 1))
      simpa using h
    rw [crcStep1_xor, crcStep1_xor, h1]

theorem specByteFold (c b : Nat) (hb : b < 256) :
    (byteBits b).foldl crcSpecStep c = crcStep1^[8] (c ^^^ b) := by
  rw [byteBits_eq_bitsList, bitsFold]
  have h : b &&& (2 ^ 8 - 1) = b := Nat.and_pow_two_sub_one_of_lt_two_pow (by omega)
  rw [h]

theorem foldl_spec_eq (data : List Nat) (c : Nat) (h : ∀ b ∈ data, b < 256) :
    data.foldl (fun acc b => (byteBits b).foldl crcSpecStep acc) c =
      data.foldl crcByteStep c := by
  induction data generalizing c with
  | nil => rfl
  | cons b rest ih =>
    rw [List.foldl_cons, List.foldl_cons, specByteFold _ _ (h b (by simp)),
      ← crcByteStep_eq _ _ (h b (by simp))]
    exact ih _ (fun x hx => h x (by simp [hx]))

theorem crc32_eq_byteFold (data : List Nat) (value : Nat) (h : ∀ b ∈ data, b < 256) :
    crc32 data value = 0xffffffff ^^^ data.foldl crcByteStep (value ^^^ 0xffffffff) := by
  rw [crc32, crc32Loop_eq _ _ h]

theorem crcSpec_eq_byteFold (data : List Nat) (h : ∀ b ∈ data, b < 256) :
    crcSpec data = 0xffffffff ^^^ data.foldl crcByteStep 0xffffffff := by
  rw [crcSpec, foldl_spec_eq _ _ h]

theorem crc32_eq_crcSpec (data : List Nat) (h : ∀ b ∈ data, b < 256) :
    crc32 data 0 = crcSpec data := by
  rw [crc32_eq_byteFold _ _ h, crcSpec_eq_byteFold _ h, Nat.zero_xor]

theorem xorCancelOuter (a b : Nat) : (a ^^^ b) ^^^ a = b := by
  rw [Nat.xor_comm a b, Nat.xor_assoc, Nat.xor_self, Nat.xor_zero]

theorem crc32_chunk_fold_aux (chunks : List (List Nat)) (s : Nat)
    (h : ∀ b ∈ chunks.flatten, b < 256) :
    chunks.foldl (fun c chunk => crc32 chunk c) s =
      0xffffffff ^^^ chunks.flatten.foldl crcByteStep (s ^^^ 0xffffffff) := by
  induction chunks generalizing s with
  | nil =>
    simp only [List.foldl_nil, List.flatten_nil]
    rw [Nat.xor_comm s, xorCancelLeft]
  | cons ch rest ih =>
    have hch : ∀ b ∈ ch, b < 256 := fun b hb => h b (by simp [hb])
    have hrest : ∀ b ∈ rest.flatten, b < 256 := fun b hb => h b (by simp [hb])
    rw [List.foldl_cons, ih _ hrest, crc32_eq_byteFold _ _ hch, xorCancelOuter,
      List.flatten_cons, List.foldl_append]

theorem crc32_chunk_fold (chunks : List (List Nat))
    (h : ∀ b ∈ chunks.flatten, b < 256) :
    chunks.foldl (fun c chunk => crc32 chunk c) 0 = crcSpec chunks.flatten := by
  rw [crc32_chunk_fold_aux _ _ h, crcSpec_eq_byteFold _ h, Nat.zero_xor]

/-! ## Byte-buffer length and layout lemmas -/

theorem leBytes_length (n v : Nat) : (leBytes n v).length = n := by
  induction n generalizing v with
  | zero => rfl
  | succ n ih => simp [leBytes, ih]

theorem beBytes_length (n v : Nat) : (beBytes n v).length = n := by
  simp [beBytes, leBytes_length]

theorem localHeaderLayout (nameBytes : List Nat) (store : Bool) (date : JSDate) :
    getLocalFileHeader nameBytes store date =
      [0x50, 0x4b, 0x03, 0x04] ++ leBytes 2 20 ++ leBytes 2 0x0808 ++
      leBytes 2 (if store then 0 else 8) ++ leBytes 2 (getDosTime date) ++
      leBytes 2 (getDosDate date) ++ leBytes 4 0 ++ leBytes 4 0 ++ leBytes 4 0 ++
      leBytes 2 nameBytes.length ++ leBytes 2 0 ++ nameBytes := by
  simp [getLocalFileHeader, writeDataView, DVValue.bytes, BIG_ENDIAN, LITTLE_ENDIAN,
    beBytes, leBytes, LOCAL_FILE_HEADER_SIGNATURE, VERSION_NEEDED_STANDARD,
    GENERAL_PURPOSE_FLAGS, COMPRESSION_METHOD_STORE, COMPRESSION_METHOD_DEFLATE,
    getDosTime, getDosDate]

theorem localHeaderLength (nameBytes : List Nat) (store : Bool) (date : JSDate) :
    (getLocalFileHeader nameBytes store date).length = 30 + nameBytes.length := by
  rw [localHeaderLayout]
  simp [leBytes_length]
  omega

/-! ## Shape of a successful addEntry -/

theorem addEntry_ok_elim (deflate : List Nat → List Nat) (st : ZipState)
    (e : EntrySubmission) (st2 : ZipState) (r : EntryRecord)
    (h : addEntry deflate st e = .ok (st2, r)) :
    st.finalized = false ∧
    validateEntryOptions e.nameBytes e.commentBytes e.mode = .ok () ∧
    r.nameBytes = e.nameBytes ∧ r.commentBytes = e.commentBytes ∧ r.date = e.date ∧
    r.mode = e.mode ∧ r.store = e.store ∧ r.startOffset = st.offset ∧
    r.crc32 = e.chunks.foldl (fun c chunk => crc32 chunk c) 0 ∧
    r.uncompressedSize = (e.chunks.map List.length).sum ∧
    r.compressedSize =
      (if e.store then e.chunks.flatten else deflate e.chunks.flatten).length ∧
    r.zip64 = entryNeedsZip64 r.uncompressedSize r.compressedSize r.startOffset ∧
    st2.finalized = st.finalized ∧
    st2.entries = st.entries ++ [r] ∧
    st2.output = st.output ++ getLocalFileHeader e.nameBytes e.store e.date ++
      (if e.store then e.chunks.flatten else deflate e.chunks.flatten) ++
      getDataDescriptor r.uncompressedSize r.compressedSize r.startOffset r.crc32 ∧
    st2.offset = st.offset + (getLocalFileHeader e.nameBytes e.store e.date).length +
      (if e.store then e.chunks.flatten else deflate e.chunks.flatten).length +
      (getDataDescriptor r.uncompressedSize r.compressedSize r.startOffset r.crc32).length := by
  by_cases hfin : st.finalized = true
  · rw [addEntry, if_pos hfin] at h
    exact absurd h (by simp)
  · cases hval : validateEntryOptions e.nameBytes e.commentBytes e.mode with
    | error msg =>
      rw [addEntry, if_neg hfin, hval] at h
      exact absurd h (by simp)
    | ok u =>
      cases u
      rw [addEntry, if_neg hfin, hval] at h
      rw [Except.ok.injEq, Prod.mk.injEq] at h
      obtain ⟨hst, hr⟩ := h
      subst hst
      subst hr
      refine ⟨by simpa using hfin, rfl, rfl, rfl, rfl, rfl, rfl, rfl, rfl, rfl, ?_, ?_,
        rfl, ?_, ?_, ?_⟩ <;> (simp [writeBytes, List.append_assoc]; try omega)

theorem validate_error_iff (nameBytes commentBytes : List Nat) (mode : Option Int) :
    (∃ msg, validateEntryOptions nameBytes commentBytes mode = .error msg) ↔
      (nameBytes.length > 65535 ∨ commentBytes.length > 65535 ∨
        ∃ m, mode = some m ∧ (m < 0 ∨ m > 65535)) := by
  unfold validateEntryOptions
  rcases mode with _ | m
  · by_cases h1 : nameBytes.length > 0xffff <;> by_cases h2 : commentBytes.length > 0xffff <;>
      simp [h1, h2]
  · by_cases h1 : nameBytes.length > 0xffff <;> by_cases h2 : commentBytes.length > 0xffff <;>
      by_cases h3 : m < 0 ∨ m > 0xffff <;>
      simp [h1, h2, h3]

theorem addEntry_error_iff (deflate : List Nat → List Nat) (st : ZipState)
    (e : EntrySubmission) (hf : st.finalized = false) :
    (∃ msg, addEntry deflate st e = .error msg) ↔
      ∃ msg, validateEntryOptions e.nameBytes e.commentBytes e.mode = .error msg := by
  rw [addEntry, if_neg (by simp [hf])]
  cases hval : validateEntryOptions e.nameBytes e.commentBytes e.mode with
  | error msg => simp
  | ok u => cases u; simp

theorem drop_take_append (l1 l2 : List Nat) (a b : Nat) (h : a + b ≤ l1.length) :
    ((l1 ++ l2).drop a).take b = (l1.drop a).take b := by
  rw [List.drop_append_of_le_length (by omega)]
  rw [List.take_append_of_le_length (by simp; omega)]

theorem zipInv_initial : ZipInv initialState := by
  constructor <;> simp [initialState]

theorem addEntry_preserves_inv (deflate : List Nat → List Nat) (st : ZipState)
    (e : EntrySubmission) (st2 : ZipState) (r : EntryRecord)
    (h : addEntry deflate st e = .ok (st2, r)) (hinv : ZipInv st) : ZipInv st2 := by
  obtain ⟨hfin, hval, hname, hcomment, hdate, hmode, hstore, hstart, hcrc, huncomp, hcomp,
    hz, hfin2, hentries, hout, hoff⟩ := addEntry_ok_elim deflate st e st2 r h
  have hheadlen := localHeaderLength e.nameBytes e.store e.date
  constructor
  · rw [hoff, hout, hinv.offsetEq]
    simp
    omega
  · rw [hentries]
    intro hemp
    simp at hemp
  · intro e2 he2
    rw [hentries] at he2
    rw [hout]
    rcases List.mem_append.mp he2 with hold | hnew
    · obtain ⟨hle, hdr⟩ := hinv.headers e2 hold
      refine ⟨by simp; omega, ?_⟩
      rw [List.append_assoc, List.append_assoc, drop_take_append _ _ _ _ hle, hdr]
    · have he2r : e2 = r := by simpa using hnew
      subst he2r
      rw [hname, hstore, hdate, hstart, hinv.offsetEq]
      refine ⟨by simp; omega, ?_⟩
      rw [List.append_assoc, List.append_assoc, List.drop_left]
      rw [← List.append_assoc]
      have htake : (getLocalFileHeader e.nameBytes e.store e.date ++
          ((if e.store then e.chunks.flatten else deflate e.chunks.flatten) ++
            getDataDescriptor e2.uncompressedSize e2.compressedSize st.output.length
              e2.crc32)).take (30 + e.nameBytes.length) =
          getLocalFileHeader e.nameBytes e.store e.date := by
        rw [← hheadlen, List.take_left]
      rw [← List.append_assoc] at htake
      exact htake
  · rw [hentries, List.map_append]
    rw [List.pairwise_append]
    refine ⟨hinv.increasing, by simp, ?_⟩
    intro a ha b hb
    simp at hb
    subst hb
    rw [hstart, hinv.offsetEq]
    simp at ha
    obtain ⟨e2, he2, hae⟩ := ha
    obtain ⟨hle, -⟩ := hinv.headers e2 he2
    omega
  · intro hne
    rw [hout]
    rcases hcase : st.entries with _ | ⟨e0, rest⟩
    · rw [hinv.emptyOut hcase]
      rw [List.nil_append, localHeaderLayout, List.append_assoc, List.append_assoc,
        List.append_assoc]
      rfl
    · have hsig := hinv.firstSig (by rw [hcase]; simp)
      have hlen : 4 ≤ st.output.length := by
        obtain ⟨hle, -⟩ := hinv.headers e0 (by rw [hcase]; simp)
        omega
      rw [List.append_assoc, List.append_assoc,
        List.take_append_of_le_length hlen, hsig]

theorem foldZip_inv (deflate : List Nat → List Nat) (subs : List EntrySubmission)
    (st : ZipState) (hinv : ZipInv st) :
    ZipInv (subs.foldl (zipStep deflate) st) := by
  induction subs generalizing st with
  | nil => exact hinv
  | cons e rest ih =>
    rw [List.foldl_cons]
    apply ih
    rw [zipStep]
    rcases hres : addEntry deflate st e with msg | ⟨st2, r⟩
    · exact hinv
    · exact addEntry_preserves_inv deflate st e st2 r hres hinv

theorem runZip_inv (deflate : List Nat → List Nat) (subs : List EntrySubmission) :
    ZipInv (runZip deflate subs) :=
  foldZip_inv deflate subs initialState zipInv_initial

theorem writeDataView_cons (v : DVValue) (vs : List DVValue) :
    writeDataView (v :: vs) = v.bytes ++ writeDataView vs := by
  simp [writeDataView]

/-! ## The claims -/

/-- C1: For every completed entry, the entry is marked (and, through
`getDataDescriptor` and `getCDFH`, encoded) as ZIP64 if and only if at least
one of its uncompressedSize, compressedSize, or startOffset is greater than
or equal to 2^32 - 1; in particular a value exactly equal to 2^32 - 1
promotes the entry. -/
theorem claim1_entry_zip64_iff (deflate : List Nat → List Nat) (st : ZipState)
    (e : EntrySubmission) (st2 : ZipState) (r : EntryRecord)
    (h : addEntry deflate st e = .ok (st2, r)) :
    (r.zip64 = true ↔
      (r.uncompressedSize ≥ 2 ^ 32 - 1 ∨ r.compressedSize ≥ 2 ^ 32 - 1 ∨
        r.startOffset ≥ 2 ^ 32 - 1)) ∧
    r.zip64 = entryNeedsZip64 r.uncompressedSize r.compressedSize r.startOffset := by
  obtain ⟨-, -, -, -, -, -, -, -, -, -, -, hz, -, -, -, -⟩ :=
    addEntry_ok_elim deflate st e st2 r h
  refine ⟨?_, hz⟩
  rw [hz]
  simp [entryNeedsZip64, ZIP64_LIMIT]
  tauto

/-- C1 witness: the iff evaluated on the completed record of a concrete
two-byte STORE entry. -/
theorem claim1_witness :
    recA.zip64 = true ↔
      (recA.uncompressedSize ≥ 2 ^ 32 - 1 ∨ recA.compressedSize ≥ 2 ^ 32 - 1 ∨
        recA.startOffset ≥ 2 ^ 32 - 1) :=
  (claim1_entry_zip64_iff (fun x => x) initialState subA stA recA rfl).1

/-- C2: At finalize, the archive-level EOCD is emitted in ZIP64 form (the
ZIP64 EOCD record plus locator before the standard EOCD, the 98-byte buffer
of getEOCDZip64) if and only if the number of entries is at least 65535, or
the central directory size is at least 2^32 - 1, or the central directory
start offset is at least 2^32 - 1; otherwise the standard 22-byte EOCD alone
is emitted.  Each boundary value itself triggers promotion. -/
theorem claim2_eocd_zip64_iff (cdStart cdSize count : Nat) :
    if count ≥ 65535 ∨ cdSize ≥ 2 ^ 32 - 1 ∨ cdStart ≥ 2 ^ 32 - 1 then
      getEOCD cdStart cdSize count = getEOCDZip64 count cdStart cdSize ∧
      (∃ rest, getEOCD cdStart cdSize count = [0x50, 0x4b, 0x06, 0x06] ++ rest) ∧
      (getEOCD cdStart cdSize count).length = 98
    else
      getEOCD cdStart cdSize count = getEOCDStandard count cdStart cdSize ∧
      (∃ rest, getEOCD cdStart cdSize count = [0x50, 0x4b, 0x05, 0x06] ++ rest) ∧
      (getEOCD cdStart cdSize count).length = 22 := by
  have hiff : eocdNeedsZip64 cdStart cdSize count = true ↔
      (count ≥ 65535 ∨ cdSize ≥ 2 ^ 32 - 1 ∨ cdStart ≥ 2 ^ 32 - 1) := by
    simp [eocdNeedsZip64, ZIP64_LIMIT]
    tauto
  by_cases hc : count ≥ 65535 ∨ cdSize ≥ 2 ^ 32 - 1 ∨ cdStart ≥ 2 ^ 32 - 1
  · rw [if_pos hc]
    have he : eocdNeedsZip64 cdStart cdSize count = true := hiff.mpr hc
    have heq : getEOCD cdStart cdSize count = getEOCDZip64 count cdStart cdSize := by
      rw [getEOCD, if_pos he]
    refine ⟨heq, ?_, ?_⟩
    · have hb : (DVValue.u32 ZIP64_END_OF_CENTRAL_DIR_SIGNATURE BIG_ENDIAN).bytes =
          [0x50, 0x4b, 0x06, 0x06] := by decide
      rw [heq, getEOCDZip64, writeDataView_cons, hb]
      exact ⟨_, rfl⟩
    · rw [heq]
      simp [getEOCDZip64, writeDataView, DVValue.bytes, BIG_ENDIAN, LITTLE_ENDIAN,
        leBytes_length, beBytes_length]
  · rw [if_neg hc]
    have he : eocdNeedsZip64 cdStart cdSize count = false := by
      have hne : ¬ (eocdNeedsZip64 cdStart cdSize count = true) := fun h => hc (hiff.mp h)
      simpa using hne
    have heq : getEOCD cdStart cdSize count = getEOCDStandard count cdStart cdSize := by
      rw [getEOCD, he]
      simp
    refine ⟨heq, ?_, ?_⟩
    · have hb : (DVValue.u32 END_OF_CENTRAL_DIR_SIGNATURE BIG_ENDIAN).bytes =
          [0x50, 0x4b, 0x05, 0x06] := by decide
      rw [heq, getEOCDStandard, writeDataView_cons, hb]
      exact ⟨_, rfl⟩
    · rw [heq]
      simp [getEOCDStandard, writeDataView, DVValue.bytes, BIG_ENDIAN, LITTLE_ENDIAN,
        leBytes_length, beBytes_length]

/-- C2 witness: the boundary entry count 65535 alone promotes the EOCD of a
small archive to ZIP64 form; one entry fewer leaves it standard. -/
theorem claim2_witness :
    (getEOCD 100 50 65535 = getEOCDZip64 65535 100 50 ∧
      (∃ rest, getEOCD 100 50 65535 = [0x50, 0x4b, 0x06, 0x06] ++ rest) ∧
      (getEOCD 100 50 65535).length = 98) ∧
    (getEOCD 100 50 65534 = getEOCDStandard 65534 100 50 ∧
      (∃ rest, getEOCD 100 50 65534 = [0x50, 0x4b, 0x05, 0x06] ++ rest) ∧
      (getEOCD 100 50 65534).length = 22) := by
  constructor
  · have h := claim2_eocd_zip64_iff 100 50 65535
    rw [if_pos (by norm_num)] at h
    exact h
  · have h := claim2_eocd_zip64_iff 100 50 65534
    rw [if_neg (by norm_num)] at h
    exact h

/-- C3: For every entry options value, the local file header is exactly 30
bytes plus the name length, laid out as signature 50 4b 03 04, version 20,
flags 0x0808, method (0 for store, 8 otherwise), DOS time and date, zeroed
CRC and sizes, name length, zero extra-field length, then the name bytes;
hence the serialized output begins with 50 4b 03 04 whenever at least one
entry is added. -/
theorem claim3_local_header_layout :
    (∀ (nameBytes : List Nat) (store : Bool) (date : JSDate),
      (getLocalFileHeader nameBytes store date).length = 30 + nameBytes.length ∧
      getLocalFileHeader nameBytes store date =
        [0x50, 0x4b, 0x03, 0x04] ++ leBytes 2 20 ++ leBytes 2 0x0808 ++
        leBytes 2 (if store then 0 else 8) ++ leBytes 2 (getDosTime date) ++
        leBytes 2 (getDosDate date) ++ leBytes 4 0 ++ leBytes 4 0 ++ leBytes 4 0 ++
        leBytes 2 nameBytes.length ++ leBytes 2 0 ++ nameBytes) ∧
    (∀ (deflate : List Nat → List Nat) (subs : List EntrySubmission),
      (runZip deflate subs).entries ≠ [] →
        (runZip deflate subs).output.take 4 = [0x50, 0x4b, 0x03, 0x04]) :=
  ⟨fun nameBytes store date =>
    ⟨localHeaderLength nameBytes store date, localHeaderLayout nameBytes store date⟩,
   fun deflate subs hne => (runZip_inv deflate subs).firstSig hne⟩

/-- C3 witness: a one-entry archive's output begins with the signature, and
the concrete header of that entry is 31 bytes. -/
theorem claim3_witness :
    (runZip (fun x => x) [subA]).output.take 4 = [0x50, 0x4b, 0x03, 0x04] ∧
    (getLocalFileHeader subA.nameBytes subA.store subA.date).length = 31 :=
  ⟨claim3_local_header_layout.2 (fun x => x) [subA] (by decide),
   (claim3_local_header_layout.1 subA.nameBytes subA.store subA.date).1⟩

/-- C4: the claim says the data descriptor is exactly 16 bytes for a
non-ZIP64 entry; the source allocates the 24-byte ZIP64-sized buffer
unconditionally, so even for the standard "Hello, World!" entry (sizes 13,
offset 0, not ZIP64) the emitted descriptor is 24 bytes: the 16-byte standard
descriptor followed by 8 zero bytes, and the one-entry archive's offset
grows by 31 + 2 + 24 bytes rather than 31 + 2 + 16. -/
theorem claim4_descriptor_always_24_bytes :
    entryNeedsZip64 13 13 0 = false ∧
    (getDataDescriptor 13 13 0 0xEC4AC3D0).length = 24 ∧
    getDataDescriptor 13 13 0 0xEC4AC3D0 =
      [0x50, 0x4b, 0x07, 0x08] ++ [0xd0, 0xc3, 0x4a, 0xec] ++
      [13, 0, 0, 0] ++ [13, 0, 0, 0] ++ [0, 0, 0, 0, 0, 0, 0, 0] ∧
    stA.offset = 31 + 2 + 24 := by
  refine ⟨by decide, by decide, by decide, ?_⟩
  rfl

/-- C5: For every finite sequence of uncompressed payload chunks of bytes,
folding the crc32 of crc-browser.ts chunk-by-chunk from seed 0 equals the
IEEE 802.3 CRC-32 (polynomial 0xEDB88320, initial value 0xFFFFFFFF, final
xor 0xFFFFFFFF) of the concatenation of the chunks; hence the CRC-32 a
completed entry records (and its data descriptor carries) is the CRC-32 of
its source's concatenated uncompressed chunks. -/
theorem claim5_crc_fold (chunks : List (List Nat))
    (h : ∀ b ∈ chunks.flatten, b < 256) :
    chunks.foldl (fun c chunk => crc32 chunk c) 0 = crcSpec chunks.flatten ∧
    (∀ (deflate : List Nat → List Nat) (st : ZipState) (e : EntrySubmission)
      (st2 : ZipState) (r : EntryRecord),
      addEntry deflate st e = .ok (st2, r) → e.chunks = chunks →
        r.crc32 = crcSpec chunks.flatten) := by
  have h1 := crc32_chunk_fold chunks h
  refine ⟨h1, fun deflate st e st2 r hok hch => ?_⟩
  obtain ⟨-, -, -, -, -, -, -, -, hcrc, -, -, -, -, -, -, -⟩ :=
    addEntry_ok_elim deflate st e st2 r hok
  rw [hcrc, hch, h1]

/-- C5 witness: the chunk fold and the bit-level CRC agree on the two-chunk
split of "Hi!". -/
theorem claim5_witness :
    [[72, 105], [33]].foldl (fun c chunk => crc32 chunk c) 0 =
      crcSpec [72, 105, 33] :=
  (claim5_crc_fold [[72, 105], [33]] (by decide)).1

/-- C6: For every sequence of entry submissions, the startOffset values of
the entry list are strictly increasing in submission order, and each entry's
startOffset equals the byte count written to the output before that entry's
local file header: the header occupies the output bytes starting exactly at
startOffset. -/
theorem claim6_offsets (deflate : List Nat → List Nat)
    (subs : List EntrySubmission) :
    ((runZip deflate subs).entries.map EntryRecord.startOffset).Pairwise (· < ·) ∧
    (∀ e ∈ (runZip deflate subs).entries,
      e.startOffset + (30 + e.nameBytes.length) ≤ (runZip deflate subs).output.length ∧
      ((runZip deflate subs).output.drop e.startOffset).take (30 + e.nameBytes.length) =
        getLocalFileHeader e.nameBytes e.store e.date) :=
  ⟨(runZip_inv deflate subs).increasing, (runZip_inv deflate subs).headers⟩

/-- C7: For every entry with store = true, the completed record satisfies
compressedSize = uncompressedSize, both equal to the total byte count of the
source's chunks (the compression stage is the identity for STORE). -/
theorem claim7_store_sizes (deflate : List Nat → List Nat) (st : ZipState)
    (e : EntrySubmission) (st2 : ZipState) (r : EntryRecord)
    (h : addEntry deflate st e = .ok (st2, r)) (hs : e.store = true) :
    r.compressedSize = r.uncompressedSize ∧
    r.uncompressedSize = (e.chunks.map List.length).sum := by
  obtain ⟨-, -, -, -, -, -, -, -, -, huncomp, hcomp, -, -, -, -, -⟩ :=
    addEntry_ok_elim deflate st e st2 r h
  rw [hcomp, huncomp, hs]
  simp [List.length_flatten]

/-- C7 witness: the concrete STORE entry has both sizes equal to 2. -/
theorem claim7_witness :
    recA.compressedSize = recA.uncompressedSize ∧
    recA.uncompressedSize = (subA.chunks.map List.length).sum :=
  claim7_store_sizes (fun x => x) initialState subA stA recA rfl rfl

/-- C6 witness: in the one-entry archive, the single entry's header occupies
the output bytes starting at its startOffset. -/
theorem claim6_witness :
    recA.startOffset + (30 + recA.nameBytes.length) ≤
      (runZip (fun x => x) [subA]).output.length ∧
    ((runZip (fun x => x) [subA]).output.drop recA.startOffset).take
        (30 + recA.nameBytes.length) =
      getLocalFileHeader recA.nameBytes recA.store recA.date :=
  (claim6_offsets (fun x => x) [subA]).2 recA (by decide)

/-- C8 counterexample: the claim requires addEntry to fail when the date is
outside the MS-DOS range (1980-2107); here a submission dated year 2200 with
valid name, comment and mode is accepted: addEntry succeeds and validation
never reads the date. -/
theorem claim8_counterexample :
    subBadDate.date.year > 2107 ∧
    addEntry (fun x => x) initialState subBadDate = .ok (stBadDate, recBadDate) :=
  ⟨by decide, rfl⟩

/-- C8 (amended): addEntry fails synchronously, leaving no byte written,
exactly when the encoded name exceeds 65535 bytes, the encoded comment
exceeds 65535 bytes, or the mode is outside [0, 65535]; the date is not
validated.  A name of exactly 65535 encoded bytes is accepted and one of
65536 bytes is rejected. -/
theorem claim8_amended_validation (deflate : List Nat → List Nat) (st : ZipState)
    (e : EntrySubmission) (hf : st.finalized = false) :
    ((∃ msg, addEntry deflate st e = .error msg) ↔
      (e.nameBytes.length > 65535 ∨ e.commentBytes.length > 65535 ∨
        ∃ m, e.mode = some m ∧ (m < 0 ∨ m > 65535))) ∧
    validateEntryOptions (List.replicate 65535 97) [] none = .ok () ∧
    (∃ msg, validateEntryOptions (List.replicate 65536 97) [] none = .error msg) := by
  refine ⟨?_, ?_, ?_⟩
  · rw [addEntry_error_iff deflate st e hf, validate_error_iff]
  · have hlen : (List.replicate 65535 (97 : Nat)).length = 65535 := by
      rw [List.length_replicate]
    unfold validateEntryOptions
    rw [if_neg (by rw [hlen]; omega), if_neg (by simp)]
  · have hlen : (List.replicate 65536 (97 : Nat)).length = 65536 := by
      rw [List.length_replicate]
    unfold validateEntryOptions
    rw [if_pos (by rw [hlen]; omega)]
    exact ⟨_, rfl⟩

/-- C8 witness: the amended characterisation evaluated on a fresh archive
and a valid submission. -/
theorem claim8_amended_witness :
    ((∃ msg, addEntry (fun x => x) initialState subA = .error msg) ↔
      (subA.nameBytes.length > 65535 ∨ subA.commentBytes.length > 65535 ∨
        ∃ m, subA.mode = some m ∧ (m < 0 ∨ m > 65535))) ∧
    validateEntryOptions (List.replicate 65535 97) [] none = .ok () ∧
    (∃ msg, validateEntryOptions (List.replicate 65536 97) [] none = .error msg) :=
  claim8_amended_validation (fun x => x) initialState subA rfl

/-- C10: Entry option validation checks only the three length and range
limits: whenever the encoded name is at most 65535 bytes, the encoded
comment at most 65535 bytes and the mode (when present) in [0, 65535],
validation accepts; it depends only on the name's length, never its content
(so empty, duplicate, absolute and dot-dot names all pass), and the accepted
name bytes are stored verbatim in the completed record. -/
theorem claim10_validation_only_limits (nameBytes commentBytes : List Nat)
    (mode : Option Int) (hn : nameBytes.length ≤ 65535)
    (hc : commentBytes.length ≤ 65535)
    (hm : ∀ m, mode = some m → 0 ≤ m ∧ m ≤ 65535) :
    validateEntryOptions nameBytes commentBytes mode = .ok () ∧
    (∀ nameBytes2 : List Nat, nameBytes2.length = nameBytes.length →
      validateEntryOptions nameBytes2 commentBytes mode = .ok ()) ∧
    (∀ (deflate : List Nat → List Nat) (st : ZipState) (e : EntrySubmission)
      (st2 : ZipState) (r : EntryRecord), addEntry deflate st e = .ok (st2, r) →
        r.nameBytes = e.nameBytes) := by
  have hok : ∀ n2 : List Nat, n2.length ≤ 65535 →
      validateEntryOptions n2 commentBytes mode = .ok () := by
    intro n2 hn2
    unfold validateEntryOptions
    rw [if_neg (by omega), if_neg (by omega)]
    rcases mode with _ | m
    · rfl
    · have hm2 := hm m rfl
      show (if m < 0 ∨ m > 0xffff then
          (Except.error "File mode must be an integer between 0 and 65535" :
            Except String Unit)
        else .ok ()) = .ok ()
      rw [if_neg (by omega)]
  refine ⟨hok nameBytes hn, fun n2 h2 => hok n2 (by omega),
    fun deflate st e st2 r h =>
      (addEntry_ok_elim deflate st e st2 r h).2.2.1⟩

/-- C10 witness: the empty name (and by length-only dependence any name of
equal length, such as one with dot-dot components) is accepted with mode
0644. -/
theorem claim10_witness :
    validateEntryOptions [] [] (some 420) = .ok () ∧
    (∀ nameBytes2 : List Nat, nameBytes2.length = ([] : List Nat).length →
      validateEntryOptions nameBytes2 [] (some 420) = .ok ()) ∧
    (∀ (deflate : List Nat → List Nat) (st : ZipState) (e : EntrySubmission)
      (st2 : ZipState) (r : EntryRecord), addEntry deflate st e = .ok (st2, r) →
        r.nameBytes = e.nameBytes) :=
  claim10_validation_only_limits [] [] (some 420) (by decide) (by decide)
    (fun m h => by cases h; decide)

theorem findSome?_isSome_iff {α β : Type} (f : α → Option β) (l : List α) :
    (∃ b, l.findSome? f = some b) ↔ ∃ a ∈ l, ∃ b, f a = some b := by
  induction l with
  | nil => simp
  | cons x xs ih => rcases hf : f x with _ | b <;> simp [List.findSome?_cons, hf, ih]

theorem checkOverrideEntry_error_iff (current : List EntryRecord) (o : OverrideEntry) :
    (∃ msg, checkOverrideEntry current o = .error msg) ↔
      overrideViolation current o := by
  unfold checkOverrideEntry overrideViolation
  rcases lookupByOffset current o.startOffset with _ | ex
  · simp
  · by_cases h1 : ex.crc32 ≠ o.crc32
    · simp [h1]
    · by_cases h2 : ex.uncompressedSize ≠ o.uncompressedSize
      · simp [h1, h2]
      · by_cases h3 : ex.compressedSize ≠ o.compressedSize
        · simp [h1, h2, h3]
        · simp [h1, h2, h3]

theorem setEntries_error_iff (current : List EntryRecord) (ovr : List OverrideEntry) :
    (∃ msg, setEntries current ovr = .error msg) ↔
      ∃ o ∈ ovr, overrideViolation current o := by
  unfold setEntries
  rcases hfs : ovr.findSome? (checkToOption current) with _ | msg
  · simp only []
    constructor
    · rintro ⟨m, hm⟩
      cases hm
    · rintro ⟨o, ho, hviol⟩
      obtain ⟨m, hm⟩ := (checkOverrideEntry_error_iff current o).mpr hviol
      have hnone : checkToOption current o = none := by
        rw [List.findSome?_eq_none_iff] at hfs
        exact hfs o ho
      rw [checkToOption, hm] at hnone
      simp at hnone
  · simp only []
    constructor
    · intro _
      have hsome : ∃ b, ovr.findSome? (checkToOption current) = some b := ⟨msg, hfs⟩
      obtain ⟨o, ho, b, hb⟩ := (findSome?_isSome_iff _ _).mp hsome
      refine ⟨o, ho, ?_⟩
      rcases hch : checkOverrideEntry current o with m2 | u
      · exact (checkOverrideEntry_error_iff current o).mp ⟨m2, hch⟩
      · cases u
        rw [checkToOption, hch] at hb
        cases hb
    · intro _
      exact ⟨msg, rfl⟩

theorem setEntries_ok_shape (current : List EntryRecord) (ovr : List OverrideEntry)
    (res : List EntryRecord) (h : setEntries current ovr = .ok res) :
    res = ovr.map overrideToRecord := by
  unfold setEntries at h
  rcases hfs : ovr.findSome? (checkToOption current) with _ | msg
  · rw [hfs] at h
    simp at h
    exact h.symm
  · rw [hfs] at h
    cases h

/-- C9 counterexample: an override list that changes only the frozen zip64
flag of an existing entry (offset, crc32 and sizes intact) is accepted by
setEntries — the new flag even lands in the entry list — and finalize does
not abort; the claim requires a failure. -/
theorem claim9_counterexample :
    ovrZipFlip.startOffset = curEntry0.startOffset ∧
    ovrZipFlip.crc32 = curEntry0.crc32 ∧
    ovrZipFlip.uncompressedSize = curEntry0.uncompressedSize ∧
    ovrZipFlip.compressedSize = curEntry0.compressedSize ∧
    ovrZipFlip.zip64 ≠ curEntry0.zip64 ∧
    setEntries [curEntry0] [ovrZipFlip] = .ok [overrideToRecord ovrZipFlip] ∧
    (overrideToRecord ovrZipFlip).zip64 = true ∧
    (finalizeZip stCur (some [ovrZipFlip])).aborted = none := by
  refine ⟨rfl, rfl, rfl, rfl, by decide, rfl, rfl, ?_⟩
  rfl

/-- C9 (amended): setEntries fails (and then finalize aborts the stream with
that error before writing any central-directory byte) exactly when some
override entry references a startOffset with no existing entry or changes
crc32, uncompressedSize or compressedSize; the zip64 flag and the mutable
fields (name, comment, date, mode, store) are not checked, and an accepted
override replaces the entry list with the converted override entries. -/
theorem claim9_amended_override (st : ZipState) (ovr : List OverrideEntry)
    (hf : st.finalized = false) :
    ((∃ msg, setEntries st.entries ovr = .error msg) ↔
      ∃ o ∈ ovr, overrideViolation st.entries o) ∧
    (∀ msg, setEntries st.entries ovr = .error msg →
      (finalizeZip st (some ovr)).aborted = some msg ∧
      (finalizeZip st (some ovr)).st.output = st.output) ∧
    (∀ res, setEntries st.entries ovr = .ok res →
      res = ovr.map overrideToRecord) := by
  refine ⟨setEntries_error_iff st.entries ovr, fun msg hmsg => ?_,
    fun res hres => setEntries_ok_shape st.entries ovr res hres⟩
  rw [finalizeZip, if_neg (by simp [hf])]
  simp [hmsg]

/-- C9 witness: the amended contract evaluated on a one-entry archive and an
override referencing a missing offset. -/
theorem claim9_amended_witness :
    ((∃ msg, setEntries stCur.entries [ovrMissing] = .error msg) ↔
      ∃ o ∈ [ovrMissing], overrideViolation stCur.entries o) ∧
    (∀ msg, setEntries stCur.entries [ovrMissing] = .error msg →
      (finalizeZip stCur (some [ovrMissing])).aborted = some msg ∧
      (finalizeZip stCur (some [ovrMissing])).st.output = stCur.output) ∧
    (∀ res, setEntries stCur.entries [ovrMissing] = .ok res →
      res = [ovrMissing].map overrideToRecord) :=
  claim9_amended_override stCur [ovrMissing] rfl
